import Mathlib

/-!
# Verification of `dspy/clients/anyscale.py`

A shallow embedding of the fine-tuning orchestration module
`src/dspy/clients/anyscale.py`, together with proofs about the claims of
the specification.

Modelling conventions:

* Python values that flow through the config-hashing code (`freeze`,
  `hash_dict`, `generate_config_files`) are modelled by the inductive
  type `PyVal`: strings, integers, `None`, lists, sets and
  string-keyed dictionaries.  All dictionaries this module manipulates
  are YAML/kwargs mappings, whose keys are strings.  Python booleans
  are a subclass of `int` (`True == 1`, `hash(True) == hash(1)`, and
  they compare as integers), so they are represented by their integer
  value.  Dictionaries are association lists; a Python `dict` never
  holds a duplicate key, which is captured by the well-formedness
  predicate `pyWF` where proofs need it.
* Python's `hash` is deterministic within one process but otherwise
  unspecified (string hashing is seeded); it is therefore modelled as
  an arbitrary function `h : Frozen → Int` that theorems quantify
  over.
* Failure (a raised `TypeError` from comparing unorderable values) is
  modelled with `Option`: `none` means the computation raises.
* The orchestration function `finetune_anyscale` is embedded as a
  function from its inputs (and an environment record holding the
  results of the external platform calls) to the list of effects it
  performs, in order, together with its outcome.
-/

/-- Python values appearing in the model/compute config dictionaries of
`anyscale.py`. -/
inductive PyVal where
  | str (s : String)
  | int (n : Int)
  | none
  | list (xs : List PyVal)
  | set (xs : List PyVal)
  | dict (kvs : List (String × PyVal))

/-- Result of the source function `freeze`: nested tuples and scalars.
A Python tuple is `tup`; a frozen dict entry `(key, frozen_value)`
becomes `tup [str key, frozen_value]`. -/
inductive Frozen where
  | str (s : String)
  | int (n : Int)
  | none
  | tup (xs : List Frozen)

mutual

/-- Structural boolean equality on `PyVal` (Python `==` for the values
this module builds; see the module comment). -/
def pyBeq : PyVal → PyVal → Bool
  | .str a, .str b => a == b
  | .int a, .int b => a == b
  | .none, .none => true
  | .list xs, .list ys => pyBeqList xs ys
  | .set xs, .set ys => pyBeqList xs ys
  | .dict xs, .dict ys => pyBeqKVs xs ys
  | _, _ => false

/-- Pointwise equality of lists of `PyVal`. -/
def pyBeqList : List PyVal → List PyVal → Bool
  | [], [] => true
  | x :: xs, y :: ys => pyBeq x y && pyBeqList xs ys
  | _, _ => false

/-- Pointwise equality of association lists. -/
def pyBeqKVs : List (String × PyVal) → List (String × PyVal) → Bool
  | [], [] => true
  | (k, v) :: xs, (k2, v2) :: ys => k == k2 && pyBeq v v2 && pyBeqKVs xs ys
  | _, _ => false

end

mutual

/-- Python `x < y` on the values of `PyVal`, as used by `sorted` inside
`freeze`.  `some b` is the boolean outcome, `none` is a raised
`TypeError`.  Integers and strings compare within their own type; lists
compare lexicographically (Python first tests `==` on the elements and
compares the first unequal pair with `<`); sets compare by proper
inclusion; dictionaries and mixed-type pairs do not support `<`. -/
def pyLt : PyVal → PyVal → Option Bool
  | .int a, .int b => some (decide (a < b))
  | .str a, .str b => some (decide (a < b))
  | .list xs, .list ys => pyLtList xs ys
  | .set xs, .set ys =>
      some (xs.all (fun x => ys.any (pyBeq x))
        && !(ys.all (fun y => xs.any (pyBeq y))))
  | _, _ => Option.none

/-- Lexicographic comparison of Python lists. -/
def pyLtList : List PyVal → List PyVal → Option Bool
  | [], [] => some false
  | [], _ :: _ => some true
  | _ :: _, [] => some false
  | x :: xs, y :: ys => if pyBeq x y then pyLtList xs ys else pyLt x y

end

/-- One step of Python's stable comparison sort: insert `x` into the
already-sorted `acc`, placing it before the first element it is
strictly less than.  Propagates a comparison `TypeError` as `none`. -/
def pyInsert (x : PyVal) : List PyVal → Option (List PyVal)
  | [] => some [x]
  | y :: ys =>
    match pyLt x y with
    | Option.none => Option.none
    | some true => some (x :: y :: ys)
    | some false => (pyInsert x ys).map (fun l => y :: l)

/-- Python `sorted` on a list of `PyVal`, modelled as a stable insertion
sort; `none` when some required comparison raises. -/
def pySorted (l : List PyVal) : Option (List PyVal) :=
  l.foldlM (fun acc x => pyInsert x acc) []

/-- Variant of `pyInsert` on `(raw, frozen)` pairs, comparing only the
raw components (exactly the comparisons Python `sorted` performs on the
raw list). -/
def pyInsertP (x : PyVal × Frozen) :
    List (PyVal × Frozen) → Option (List (PyVal × Frozen))
  | [] => some [x]
  | y :: ys =>
    match pyLt x.1 y.1 with
    | Option.none => Option.none
    | some true => some (x :: y :: ys)
    | some false => (pyInsertP x ys).map (fun l => y :: l)

/-- Stable sort of `(raw, frozen)` pairs by the raw component. -/
def pySortP (l : List (PyVal × Frozen)) : Option (List (PyVal × Frozen)) :=
  l.foldlM (fun acc x => pyInsertP x acc) []

/-- Insertion of `x` into a list sorted by the projection `key`,
placing `x` before the first element whose key is strictly greater
(the stable placement Python uses). -/
def keyInsert {α κ : Type} [LinearOrder κ] (key : α → κ) (x : α) :
    List α → List α
  | [] => [x]
  | y :: ys => if key x < key y then x :: y :: ys else y :: keyInsert key x ys

/-- Stable insertion sort by the projection `key`. -/
def keySort {α κ : Type} [LinearOrder κ] (key : α → κ) (l : List α) : List α :=
  l.foldl (fun acc x => keyInsert key x acc) []

mutual

/-- The source function `freeze` (lines 269-276): a dict becomes the
sorted tuple of its `(key, frozen_value)` pairs, a list or set becomes
the tuple of its sorted elements, frozen, and scalars are returned
unchanged.

For a dict, each value is frozen and the `(key, frozen_value)` pairs
are sorted by key; the keys of a Python dict are distinct, so the
tuple comparison performed by `sorted` never looks past the key.  For
a list or set the source sorts the raw elements first and then freezes
each; the embedding freezes the elements first and stably sorts the
`(raw, frozen)` pairs with exactly the comparisons `sorted` performs
on the raw elements, which produces the same `Option` result (both
fail precisely when a raw comparison raises or a nested freeze fails)
while keeping the recursion structural. -/
def freeze : PyVal → Option Frozen
  | .str s => some (.str s)
  | .int n => some (.int n)
  | .none => some .none
  | .list xs =>
    (freezeList xs).bind (fun fs =>
      (pySortP (xs.zip fs)).map (fun s => Frozen.tup (s.map Prod.snd)))
  | .set xs =>
    (freezeList xs).bind (fun fs =>
      (pySortP (xs.zip fs)).map (fun s => Frozen.tup (s.map Prod.snd)))
  | .dict kvs =>
    (freezeKVs kvs).map (fun fkvs =>
      Frozen.tup ((keySort Prod.fst fkvs).map
        (fun kv => Frozen.tup [Frozen.str kv.1, kv.2])))

/-- `freeze` applied to each element of a list. -/
def freezeList : List PyVal → Option (List Frozen)
  | [] => some []
  | x :: xs =>
    (freeze x).bind (fun f => (freezeList xs).map (fun fs => f :: fs))

/-- `freeze` applied to each value of an association list. -/
def freezeKVs : List (String × PyVal) → Option (List (String × Frozen))
  | [] => some []
  | kv :: kvs =>
    (freeze kv.2).bind (fun f =>
      (freezeKVs kvs).map (fun fs => (kv.1, f) :: fs))

end

/-- Total version of `freeze` used to express what a successful freeze
returns. -/
def freezeD (v : PyVal) : Frozen := (freeze v).getD (Frozen.int 0)

/-- The source function `hash_dict` (lines 278-279): hash the frozen
form.  `h` stands for the process-fixed Python `hash`. -/
def hash_dict (h : Frozen → Int) (d : PyVal) : Option Int :=
  (freeze d).map h

/-- The config-file name computed by `generate_config_files`
(lines 280-283): the hash of the frozen config, negated if negative,
spliced into `model_config_dspy_{N}.yaml`.  `none` when `freeze`
raises. -/
def configFilename (h : Frozen → Int) (d : PyVal) : Option String :=
  (hash_dict h d).map (fun dictSortedHash =>
    let a := if dictSortedHash < 0 then -dictSortedHash else dictSortedHash
    "model_config_dspy_" ++ toString a ++ ".yaml")

mutual

/-- Canonical form with respect to dictionary-key ordering: sorts the
entries of every (possibly nested) dictionary by key and leaves
everything else, in particular the order of list elements, unchanged.
Two values are "equal up to the ordering of their dictionary keys"
precisely when they have the same `keyCanon` image.  This definition
formalises the claim language; it is not part of the source. -/
def keyCanon : PyVal → PyVal
  | .str s => .str s
  | .int n => .int n
  | .none => .none
  | .list xs => .list (keyCanonList xs)
  | .set xs => .set (keyCanonList xs)
  | .dict kvs => .dict (keySort Prod.fst (keyCanonKVs kvs))

/-- `keyCanon` applied to each element of a list. -/
def keyCanonList : List PyVal → List PyVal
  | [] => []
  | x :: xs => keyCanon x :: keyCanonList xs

/-- `keyCanon` applied to each value of an association list. -/
def keyCanonKVs : List (String × PyVal) → List (String × PyVal)
  | [] => []
  | kv :: kvs => (kv.1, keyCanon kv.2) :: keyCanonKVs kvs

end

/-- Scalar (hashable, set-storable) values: integers, strings, `None`. -/
def isScalar : PyVal → Bool
  | .int _ => true
  | .str _ => true
  | .none => true
  | _ => false

mutual

/-- Well-formedness invariants every value reachable in the Python
source satisfies: a dictionary never holds two entries with the same
key, and a set only holds hashable elements (dicts, lists and sets are
unhashable; the scalars cover every set element the module can build). -/
def pyWF : PyVal → Bool
  | .str _ => true
  | .int _ => true
  | .none => true
  | .list xs => pyWFList xs
  | .set xs => xs.all isScalar
  | .dict kvs => decide ((kvs.map Prod.fst).Nodup) && pyWFKVs kvs

/-- `pyWF` on every element of a list. -/
def pyWFList : List PyVal → Bool
  | [] => true
  | x :: xs => pyWF x && pyWFList xs

/-- `pyWF` on every value of an association list. -/
def pyWFKVs : List (String × PyVal) → Bool
  | [] => true
  | kv :: kvs => pyWF kv.2 && pyWFKVs kvs

end

/-- The claim language "lists of mutually orderable elements": all
elements drawn from one totally ordered scalar type (all integers, or
all strings) — exactly the lists on which Python `<` is a strict total
order, so that `sorted` is well defined and order-insensitive. -/
def MutuallyOrderable (xs : List PyVal) : Prop :=
  (∃ ns : List Int, xs = ns.map PyVal.int)
    ∨ (∃ ss : List String, xs = ss.map PyVal.str)

/-- Keys of a Python dict modelled as an association list. -/
def dictKeys (d : List (String × PyVal)) : List String := d.map Prod.fst

/-- Python `d[k]`, as an `Option` (`none` models a missing key). -/
def dictGet (d : List (String × PyVal)) (k : String) : Option PyVal :=
  (d.find? (fun kv => kv.1 == k)).map Prod.snd

/-- Python `d[k] = v`: replaces the value at the (unique) existing
occurrence of the key in place, otherwise appends the new entry
(Python dicts preserve insertion order). -/
def dictSet (d : List (String × PyVal)) (k : String) (v : PyVal) :
    List (String × PyVal) :=
  match d with
  | [] => [(k, v)]
  | kv :: rest => if kv.1 = k then (k, v) :: rest else kv :: dictSet rest k v

/-- Python `d.update(u)`: assign each entry of `u` into `d`, in order. -/
def dictUpdate (d u : List (String × PyVal)) : List (String × PyVal) :=
  u.foldl (fun acc kv => dictSet acc kv.1 kv.2) d

/-- The removal effect of Python `d.pop(k, default)`. -/
def dictPop (d : List (String × PyVal)) (k : String) : List (String × PyVal) :=
  d.filter (fun kv => kv.1 ≠ k)

/-- Python truthiness of a `PyVal` (empty containers, `0`, the empty
string and `None` are falsy). -/
def pyTruthy : PyVal → Bool
  | .none => false
  | .int n => decide (n ≠ 0)
  | .str s => decide (s ≠ "")
  | .list xs => !xs.isEmpty
  | .set xs => !xs.isEmpty
  | .dict kvs => !kvs.isEmpty

/-- The dictionary `model_config_data` that `generate_config_files`
(lines 249-267) dumps into the model-config YAML file: the base
template updated with the caller-supplied hyperparameters, then the
`model_id` assignment, then the fixed `custom_modifications` (with
`output_dir` appended when the caller passed a truthy one), with
`None`-valued entries dropped at the end. -/
def modelConfigData (template hyper : List (String × PyVal))
    (model trainPath : String) (evalPath : Option String)
    (outputDir : PyVal) : List (String × PyVal) :=
  let d1 := dictUpdate template hyper
  let d2 := dictSet d1 "model_id" (.str model)
  let custom : List (String × PyVal) :=
    [("model_id", .str model),
     ("train_path", .str trainPath),
     ("valid_path", match evalPath with | some p => .str p | Option.none => .none),
     ("logger", .dict [("provider", .str "wandb")]),
     ("num_checkpoints_to_keep", .int 10)]
  let custom :=
    if pyTruthy outputDir then custom ++ [("output_dir", outputDir)] else custom
  let d3 := dictUpdate d2 custom
  d3.filter (fun kv => !pyBeq kv.2 PyVal.none)

/-- Effect of the early lines of `finetune_anyscale` (92-102) on the
caller-supplied `train_kwargs` object: `train_kwargs or {}` (line 92)
rebinds the local name to a fresh dict when the argument is falsy (an
empty dict), leaving the caller's object untouched; otherwise the
caller's own dict receives the `"model"` entry (line 94) and loses
`"serve_config_path"` (line 102).  Defined under the asserted
precondition that `"model"` is not already a key (line 93). -/
def callerKwargsAfter (tk : List (String × PyVal)) (model : String) :
    List (String × PyVal) :=
  if tk.isEmpty then tk
  else dictPop (dictSet tk "model" (.str model)) "serve_config_path"

/-- Modelled from the spec: the enumeration `TrainingMethod` lives in
`dspy.clients.finetune`, which is not under `src/`.  The spec speaks of
"unsupported training methods", so the enumeration has members besides
`SFT`; one further member stands in for them. -/
inductive TrainingMethod where
  | SFT
  | Preference
deriving DecidableEq, Repr

/-- The source constant `TRAINING_METHODS_ANYSCALE` (lines 31-33): the
list of training methods supported by AnyScale. -/
def TRAINING_METHODS_ANYSCALE : List TrainingMethod := [TrainingMethod.SFT]

/-- One chat message of a training record. -/
structure ChatMessage where
  role : String
  content : String
deriving DecidableEq, Repr

/-- One training record: a chat example with a list of messages. -/
structure TrainRecord where
  messages : List ChatMessage
deriving DecidableEq, Repr

/-- Modelled from the spec: the message roles the provider supports
(the spec says "validation rejects a dataset containing an unsupported
message role"). -/
def allowedRoles : List String := ["system", "user", "assistant", "function"]

/-- Modelled from the spec: `openai_data_validation` from
`dspy.clients.openai` is imported by the source but is not under
`src/`.  Per the spec it is "a dataset validator (checks record
shape/length against provider limits)" whose reported problems include
an unsupported message role; it returns the collection of format
problems found in the dataset (empty when the dataset is well
formed). -/
def openai_data_validation (dataset : List TrainRecord) : List String :=
  (if dataset.any (fun r => r.messages.isEmpty)
    then ["missing_messages_list"] else [])
  ++ (if dataset.any (fun r =>
        r.messages.any (fun m => !allowedRoles.contains m.role))
    then ["unrecognized_role"] else [])

/-- Modelled from the spec: the provider message-length limit the
validator checks conversations against. -/
def providerMaxLength : Nat := 16385

/-- Modelled from the spec: `check_message_lengths` from
`dspy.clients.openai` (not under `src/`) computes the conversation
lengths of the records, to be compared against `providerMaxLength`. -/
def check_message_lengths (dataset : List TrainRecord) : List Nat :=
  dataset.map (fun r => (r.messages.map (fun m => m.content.length)).sum)

/-- The source function `verify_dataset` (lines 179-189): runs the
shape validation and returns `False` when it reports any problem; it
then computes the conversation lengths (the local `convo_lens`, whose
value the source binds but never uses) and returns `True`. -/
def verify_dataset (dataset : List TrainRecord) : Bool :=
  let datasetValidation := openai_data_validation dataset
  if !datasetValidation.isEmpty then false
  else
    let _convoLens := check_message_lengths dataset
    true

/-- The shell command `submit_data` runs for one file (lines 207-213). -/
inductive CopyCmd where
  | awsS3 (src dst : String)
  | gcloudStorage (src dst : String)
  | localCp (src dst : String)
deriving DecidableEq, Repr

/-- Python `str.split` at a single separator character, on the
character list of the string (so that it computes by structural
recursion): splitting the empty string gives one empty field. -/
def splitOnChar (sep : Char) : List Char → List (List Char)
  | [] => [[]]
  | c :: cs =>
    match splitOnChar sep cs with
    | [] => if c = sep then [[], []] else [[c]]
    | h :: t => if c = sep then [] :: h :: t else (c :: h) :: t

/-- Python `os.path.join` for the two-argument form the source uses. -/
def pathJoin (a b : String) : String :=
  if b.data.head? = some (Char.ofNat 47) then b
  else if a = "" then b
  else if a.data.getLast? = some (Char.ofNat 47) then a ++ b
  else a ++ "/" ++ b

/-- `path.split("/")[-1]`: the final component of a path. -/
def lastComponent (p : String) : String :=
  String.mk ((splitOnChar (Char.ofNat 47) p.data).getLastD [])

/-- Copy-command selection and remote path for one dataset file (the
loop body of `submit_data`, lines 201-214): the destination is the
storage root joined with the final component of the local path, and
the command is chosen by the first two characters of the
destination. -/
def submitOne (storage path : String) : CopyCmd × String :=
  let remotePath := pathJoin storage (lastComponent path)
  let cmd :=
    if remotePath.data.take 2 = "s3".data then CopyCmd.awsS3 path remotePath
    else if remotePath.data.take 2 = "gs".data then
      CopyCmd.gcloudStorage path remotePath
    else CopyCmd.localCp path remotePath
  (cmd, remotePath)

/-- The source function `submit_data` (lines 192-216): builds the
datasets mapping (`"train"`, plus `"val"` when an eval path is given),
runs the copy command for each, and returns the remote train path and
the optional remote val path. -/
def submit_data (storage trainPath : String) (evalPath : Option String) :
    List (String × CopyCmd) × (String × Option String) :=
  let t := submitOne storage trainPath
  match evalPath with
  | Option.none => ([("train", t.1)], (t.2, Option.none))
  | some p =>
    let v := submitOne storage p
    ([("train", t.1), ("val", v.1)], (t.2, some v.2))

/-- Observable effects of the orchestration, in program order. -/
inductive Effect where
  | logInfo (msg : String)
  | logError (msg : String)
  | verifyData
  | saveData
  | submitData
  | generateConfig
  | submitJob
  | jobWait (jobId : String) (timeoutS : Nat)
  | getModelInfo (jobId : String)
  | copyLora
  | updateServeConfig
deriving DecidableEq, Repr

/-- Python exceptions raised by the orchestration. -/
inductive PyErr where
  | assertionError (msg : String)
  | notImplementedError (msg : String)
  | runtimeError (msg : String)
  | attributeError (msg : String)
deriving DecidableEq, Repr

/-- The message of an exception. -/
def PyErr.message : PyErr → String
  | .assertionError m => m
  | .notImplementedError m => m
  | .runtimeError m => m
  | .attributeError m => m

/-- Results of the external platform calls `finetune_anyscale` makes:
the path `save_data` returns, the `ANYSCALE_ARTIFACT_STORAGE`
environment variable, the job id `anyscale.job.submit` returns, and
the checkpoint the happy path would return. -/
structure AnyscaleEnv where
  dataPath : String
  storage : String
  jobId : String
  lastCheckpoint : String
deriving Repr

/-- The argument handed to the effective `wait_for_training`: either a
plain job-id string — what the call site at line 127 passes — or an
object carrying a `job_id` attribute — what the def at line 317
expects. -/
inductive WaitArg where
  | strVal (s : String)
  | jobObj (jobId : String)
deriving DecidableEq, Repr

/-- The first `wait_for_training` (lines 158-160), taking the job id
itself.  The module later rebinds the same name (line 317), so this
definition is shadowed and unreachable after import. -/
def wait_for_training_shadowed (jobId : String) :
    List Effect × Except PyErr Unit :=
  ([Effect.jobWait jobId 18000], Except.ok ())

/-- The effective `wait_for_training` (lines 317-319), the later of the
two module-level definitions of the name: it logs, then evaluates
`job.job_id` on its argument and passes the result to
`anyscale.job.wait` with `timeout_s=18000`.  On a string argument the
attribute access raises `AttributeError` before any wait occurs. -/
def wait_for_training (job : WaitArg) : List Effect × Except PyErr Unit :=
  match job with
  | .jobObj id =>
    ([Effect.logInfo "Waiting for training to complete",
      Effect.jobWait id 18000], Except.ok ())
  | .strVal _ =>
    ([Effect.logInfo "Waiting for training to complete"],
     Except.error (PyErr.attributeError "str object has no attribute job_id"))

/-- Line 93's assertion message. -/
def assertMsg : String := "Model should not be in the train_kwargs"

/-- Line 99's `NotImplementedError` message (with the supported-methods
list spliced in). -/
def unsupportedMsg : String :=
  "AnyScale can only support [TrainingMethod.SFT] for the time being"

/-- Lines 107-109's validation error message. -/
def datasetErrMsg : String :=
  "[Finetune] Error: Unable to verify that the dataset is in the correct format."

/-- The body of `finetune_anyscale` (the `try` block, lines 91-147),
with the local `train_method` as a parameter (line 95 sets it to
`TrainingMethod.SFT`; the source comments that it could be an
argument).  External calls are represented by their `Effect` and their
results come from `env`; the internal config generation and job
submission are the `generateConfig` and `submitJob` actions.  The wait
step calls the effective `wait_for_training` with `job.job_id`, a
string. -/
def finetune_body (trainMethod : TrainingMethod) (model : String)
    (trainData : List TrainRecord)
    (trainKwargs : Option (List (String × PyVal)))
    (env : AnyscaleEnv) : List Effect × Except PyErr String :=
  let kwargs := match trainKwargs with
    | Option.none => []
    | some tk => if tk.isEmpty then [] else tk
  if "model" ∈ dictKeys kwargs then
    ([], Except.error (PyErr.assertionError assertMsg))
  else
    let kwargs := dictSet kwargs "model" (.str model)
    let tr := [Effect.logInfo "[Finetune] Starting training process..."]
    if trainMethod ∉ TRAINING_METHODS_ANYSCALE then
      (tr, Except.error (PyErr.notImplementedError unsupportedMsg))
    else
      let _serveConfigPath :=
        (dictGet kwargs "serve_config_path").getD (.str "serve_1B.yaml")
      let _kwargs := dictPop kwargs "serve_config_path"
      let tr := tr ++
        [Effect.logInfo "[Finetune] Retrieving the serve_config_path if provided...",
         Effect.logInfo "[Finetune] Validating the dataset format...",
         Effect.verifyData]
      if !verify_dataset trainData then
        (tr ++ [Effect.logError datasetErrMsg],
         Except.error (PyErr.runtimeError datasetErrMsg))
      else
        let tr := tr ++
          [Effect.logInfo "[Finetune] Converting data to JSONL format...",
           Effect.saveData]
        let dataPath := env.dataPath
        let submitted := submit_data env.storage dataPath Option.none
        let _remoteTrainPath := submitted.2.1
        let tr := tr ++
          [Effect.logInfo "[Finetune] Submitting data to remote storage...",
           Effect.submitData,
           Effect.logInfo "[Finetune] Generating configuration files...",
           Effect.generateConfig,
           Effect.logInfo "[Finetune] Starting remote training...",
           Effect.submitJob,
           Effect.logInfo "[Finetune] Waiting for training to complete..."]
        let w := wait_for_training (WaitArg.strVal env.jobId)
        match w.2 with
        | Except.error e => (tr ++ w.1, Except.error e)
        | Except.ok _ =>
          (tr ++ w.1 ++
            [Effect.logInfo "[Finetune] Training completed.",
             Effect.getModelInfo env.jobId,
             Effect.copyLora,
             Effect.updateServeConfig],
           Except.ok env.lastCheckpoint)

/-- The source function `finetune_anyscale` (lines 84-151): the body
with `train_method = TrainingMethod.SFT` (line 95), wrapped in the
`except` clause (lines 149-151), which logs the error and re-raises it
unchanged. -/
def finetune_anyscale (model : String) (trainData : List TrainRecord)
    (trainKwargs : Option (List (String × PyVal)))
    (env : AnyscaleEnv) : List Effect × Except PyErr String :=
  let r := finetune_body TrainingMethod.SFT model trainData trainKwargs env
  match r.2 with
  | Except.ok v => (r.1, Except.ok v)
  | Except.error e =>
    (r.1 ++ [Effect.logError
      ("[Finetune] Error occurred during training: " ++ e.message)],
     Except.error e)

/-- Concrete config mappings for the witnesses: equal up to the
ordering of (nested) dictionary keys. -/
def exampleConfigA : PyVal :=
  .dict [("b", .int 1),
         ("a", .dict [("y", .int 2), ("x", .str "s")]),
         ("c", .list [.int 3, .int 1])]

/-- `exampleConfigA` with dictionary entries written in another
order. -/
def exampleConfigB : PyVal :=
  .dict [("a", .dict [("x", .str "s"), ("y", .int 2)]),
         ("c", .list [.int 3, .int 1]),
         ("b", .int 1)]

/-- A concrete environment for the orchestration witnesses. -/
def exampleEnv : AnyscaleEnv :=
  { dataPath := "/tmp/train_anyscale.jsonl",
    storage := "s3://bucket/artifacts",
    jobId := "prodjob_123",
    lastCheckpoint := "ckpt" }

/-- A well-formed one-record chat dataset. -/
def exampleGoodData : List TrainRecord :=
  [⟨[⟨"user", "hi"⟩, ⟨"assistant", "hello"⟩]⟩]

/-- A dataset containing an unsupported message role. -/
def exampleBadData : List TrainRecord :=
  [⟨[⟨"alien", "hi"⟩]⟩]

/-- A shape-valid record whose single message exceeds the provider
message-length limit. -/
def longRecord : TrainRecord :=
  ⟨[⟨"user", String.mk (List.replicate 20000 'a')⟩]⟩

/-! ## Basic facts about the boolean equalities -/

mutual

theorem pyBeq_eq : ∀ (x y : PyVal), pyBeq x y = true ↔ x = y
  | .str a, .str b => by simp [pyBeq]
  | .int a, .int b => by simp [pyBeq]
  | .none, .none => by simp [pyBeq]
  | .list xs, .list ys => by simp [pyBeq, pyBeqList_eq xs ys]
  | .set xs, .set ys => by simp [pyBeq, pyBeqList_eq xs ys]
  | .dict xs, .dict ys => by simp [pyBeq, pyBeqKVs_eq xs ys]
  | .str _, .int _ => by simp [pyBeq]
  | .str _, .none => by simp [pyBeq]
  | .str _, .list _ => by simp [pyBeq]
  | .str _, .set _ => by simp [pyBeq]
  | .str _, .dict _ => by simp [pyBeq]
  | .int _, .str _ => by simp [pyBeq]
  | .int _, .none => by simp [pyBeq]
  | .int _, .list _ => by simp [pyBeq]
  | .int _, .set _ => by simp [pyBeq]
  | .int _, .dict _ => by simp [pyBeq]
  | .none, .str _ => by simp [pyBeq]
  | .none, .int _ => by simp [pyBeq]
  | .none, .list _ => by simp [pyBeq]
  | .none, .set _ => by simp [pyBeq]
  | .none, .dict _ => by simp [pyBeq]
  | .list _, .str _ => by simp [pyBeq]
  | .list _, .int _ => by simp [pyBeq]
  | .list _, .none => by simp [pyBeq]
  | .list _, .set _ => by simp [pyBeq]
  | .list _, .dict _ => by simp [pyBeq]
  | .set _, .str _ => by simp [pyBeq]
  | .set _, .int _ => by simp [pyBeq]
  | .set _, .none => by simp [pyBeq]
  | .set _, .list _ => by simp [pyBeq]
  | .set _, .dict _ => by simp [pyBeq]
  | .dict _, .str _ => by simp [pyBeq]
  | .dict _, .int _ => by simp [pyBeq]
  | .dict _, .none => by simp [pyBeq]
  | .dict _, .list _ => by simp [pyBeq]
  | .dict _, .set _ => by simp [pyBeq]

theorem pyBeqList_eq : ∀ (xs ys : List PyVal), pyBeqList xs ys = true ↔ xs = ys
  | [], [] => by simp [pyBeqList]
  | [], _ :: _ => by simp [pyBeqList]
  | _ :: _, [] => by simp [pyBeqList]
  | x :: xs, y :: ys => by
      simp [pyBeqList, pyBeq_eq x y, pyBeqList_eq xs ys]

theorem pyBeqKVs_eq : ∀ (xs ys : List (String × PyVal)),
    pyBeqKVs xs ys = true ↔ xs = ys
  | [], [] => by simp [pyBeqKVs]
  | [], _ :: _ => by simp [pyBeqKVs]
  | _ :: _, [] => by simp [pyBeqKVs]
  | (k, v) :: xs, (k2, v2) :: ys => by
      simp [pyBeqKVs, pyBeq_eq v v2, pyBeqKVs_eq xs ys, and_assoc]

end

/-! ## The keyed insertion sort: permutation, sortedness, uniqueness -/

theorem keyInsert_perm {α κ : Type} [LinearOrder κ] (key : α → κ) (x : α) :
    ∀ l : List α, (keyInsert key x l).Perm (x :: l)
  | [] => by simp [keyInsert]
  | y :: ys => by
      simp only [keyInsert]
      by_cases h : key x < key y
      · simp [h]
      · simp only [h, if_false]
        exact ((keyInsert_perm key x ys).cons y).trans (List.Perm.swap x y ys)

theorem keySortAux_perm {α κ : Type} [LinearOrder κ] (key : α → κ) :
    ∀ (l acc : List α),
      (l.foldl (fun acc x => keyInsert key x acc) acc).Perm (acc ++ l)
  | [], acc => by simp
  | x :: xs, acc => by
      simp only [List.foldl]
      refine (keySortAux_perm key xs (keyInsert key x acc)).trans ?_
      have h1 : ((keyInsert key x acc) ++ xs).Perm ((x :: acc) ++ xs) :=
        (keyInsert_perm key x acc).append_right xs
      exact h1.trans List.perm_middle.symm

theorem keySort_perm {α κ : Type} [LinearOrder κ] (key : α → κ) (l : List α) :
    (keySort key l).Perm l := by
  simpa [keySort] using keySortAux_perm key l []

theorem mem_keySort {α κ : Type} [LinearOrder κ] (key : α → κ) (l : List α)
    (a : α) : a ∈ keySort key l ↔ a ∈ l :=
  (keySort_perm key l).mem_iff

theorem keyInsert_pairwise {α κ : Type} [LinearOrder κ] (key : α → κ) (x : α) :
    ∀ {l : List α}, l.Pairwise (fun a b => key a ≤ key b) →
      (keyInsert key x l).Pairwise (fun a b => key a ≤ key b)
  | [], _ => by simp [keyInsert]
  | y :: ys, h => by
      rw [List.pairwise_cons] at h
      obtain ⟨hy, hys⟩ := h
      by_cases hlt : key x < key y
      · simp only [keyInsert, if_pos hlt]
        refine List.Pairwise.cons ?_ (List.Pairwise.cons hy hys)
        intro z hz
        rcases List.mem_cons.mp hz with rfl | hz
        · exact le_of_lt hlt
        · exact (le_of_lt hlt).trans (hy z hz)
      · simp only [keyInsert, if_neg hlt]
        refine List.Pairwise.cons ?_ (keyInsert_pairwise key x hys)
        intro z hz
        have hz2 := (keyInsert_perm key x ys).mem_iff.mp hz
        rcases List.mem_cons.mp hz2 with rfl | hz2
        · exact le_of_not_lt hlt
        · exact hy z hz2

theorem keySortAux_pairwise {α κ : Type} [LinearOrder κ] (key : α → κ) :
    ∀ (l acc : List α), acc.Pairwise (fun a b => key a ≤ key b) →
      (l.foldl (fun acc x => keyInsert key x acc) acc).Pairwise
        (fun a b => key a ≤ key b)
  | [], _, h => h
  | x :: xs, acc, h =>
      keySortAux_pairwise key xs (keyInsert key x acc)
        (keyInsert_pairwise key x h)

theorem keySort_pairwise {α κ : Type} [LinearOrder κ] (key : α → κ)
    (l : List α) :
    (keySort key l).Pairwise (fun a b => key a ≤ key b) :=
  keySortAux_pairwise key l [] (by simp)

theorem sorted_keyinj_perm_eq {α κ : Type} [LinearOrder κ] (key : α → κ) :
    ∀ (l1 l2 : List α), l1.Perm l2 →
      l1.Pairwise (fun a b => key a ≤ key b) →
      l2.Pairwise (fun a b => key a ≤ key b) →
      (∀ a ∈ l1, ∀ b ∈ l1, key a = key b → a = b) →
      l1 = l2
  | [], l2, h, _, _, _ => (h.symm.eq_nil).symm
  | x :: t1, l2, h, h1, h2, hinj => by
      cases l2 with
      | nil => exact absurd h.eq_nil (by simp)
      | cons y t2 =>
        by_cases hxy : x = y
        · subst hxy
          have ht := h.cons_inv
          have hrec := sorted_keyinj_perm_eq key t1 t2 ht
            (List.pairwise_cons.mp h1).2 (List.pairwise_cons.mp h2).2
            (fun a ha b hb hk =>
              hinj a (List.mem_cons_of_mem x ha) b (List.mem_cons_of_mem x hb) hk)
          rw [hrec]
        · have hx2 : x ∈ y :: t2 := h.mem_iff.mp (List.mem_cons_self x t1)
          have hy1 : y ∈ x :: t1 := h.mem_iff.mpr (List.mem_cons_self y t2)
          have hx2a : x ∈ t2 := by
            rcases List.mem_cons.mp hx2 with h' | h'
            · exact absurd h' hxy
            · exact h'
          have hy1a : y ∈ t1 := by
            rcases List.mem_cons.mp hy1 with h' | h'
            · exact absurd h'.symm hxy
            · exact h'
          have k1 : key x ≤ key y := (List.pairwise_cons.mp h1).1 y hy1a
          have k2 : key y ≤ key x := (List.pairwise_cons.mp h2).1 x hx2a
          exact absurd
            (hinj x (List.mem_cons_self x t1) y (List.mem_cons_of_mem x hy1a)
              (le_antisymm k1 k2)) hxy

theorem keySort_eq_of_perm {α κ : Type} [LinearOrder κ] (key : α → κ)
    {l1 l2 : List α} (hp : l1.Perm l2)
    (hinj : ∀ a ∈ l1, ∀ b ∈ l1, key a = key b → a = b) :
    keySort key l1 = keySort key l2 :=
  sorted_keyinj_perm_eq key _ _
    ((keySort_perm key l1).trans (hp.trans (keySort_perm key l2).symm))
    (keySort_pairwise key l1) (keySort_pairwise key l2)
    (fun a ha b hb hk =>
      hinj a ((mem_keySort key l1 a).mp ha) b ((mem_keySort key l1 b).mp hb) hk)

/-! ## Characterisations of the freezing helpers -/

theorem freezeD_eq {x : PyVal} {f : Frozen} (h : freeze x = some f) :
    freezeD x = f := by
  simp [freezeD, h]

theorem freezeList_isSome : ∀ (l : List PyVal),
    (freezeList l).isSome = true ↔ ∀ x ∈ l, (freeze x).isSome = true
  | [] => by simp [freezeList]
  | x :: xs => by
      cases hx : freeze x with
      | none => simp [freezeList, hx]
      | some f => simp [freezeList, hx, freezeList_isSome xs]

theorem freezeList_eq_map : ∀ (l : List PyVal),
    (∀ x ∈ l, (freeze x).isSome = true) →
    freezeList l = some (l.map freezeD)
  | [], _ => rfl
  | x :: xs, h => by
      obtain ⟨f, hf⟩ := Option.isSome_iff_exists.mp (h x (by simp))
      rw [freezeList, hf, freezeList_eq_map xs (fun y hy => h y (by simp [hy]))]
      simp [freezeD_eq hf]

theorem freezeKVs_isSome : ∀ (l : List (String × PyVal)),
    (freezeKVs l).isSome = true ↔ ∀ kv ∈ l, (freeze kv.2).isSome = true
  | [] => by simp [freezeKVs]
  | kv :: kvs => by
      cases hx : freeze kv.2 with
      | none => simp [freezeKVs, hx]
      | some f => simp [freezeKVs, hx, freezeKVs_isSome kvs]

theorem freezeKVs_eq_map : ∀ (l : List (String × PyVal)),
    (∀ kv ∈ l, (freeze kv.2).isSome = true) →
    freezeKVs l = some (l.map (fun kv => (kv.1, freezeD kv.2)))
  | [], _ => rfl
  | kv :: kvs, h => by
      obtain ⟨f, hf⟩ := Option.isSome_iff_exists.mp (h kv (by simp))
      rw [freezeKVs, hf, freezeKVs_eq_map kvs (fun y hy => h y (by simp [hy]))]
      simp [freezeD_eq hf]

/-! ## Well-formedness and canonicalisation basics -/

theorem pyWFList_mem : ∀ {l : List PyVal}, pyWFList l = true →
    ∀ x ∈ l, pyWF x = true
  | [], _ => by simp
  | x :: xs, h => by
      rw [pyWFList, Bool.and_eq_true] at h
      intro y hy
      rcases List.mem_cons.mp hy with rfl | hy
      · exact h.1
      · exact pyWFList_mem h.2 y hy

theorem pyWFKVs_mem : ∀ {l : List (String × PyVal)}, pyWFKVs l = true →
    ∀ kv ∈ l, pyWF kv.2 = true
  | [], _ => by simp
  | kv :: kvs, h => by
      rw [pyWFKVs, Bool.and_eq_true] at h
      intro y hy
      rcases List.mem_cons.mp hy with rfl | hy
      · exact h.1
      · exact pyWFKVs_mem h.2 y hy

theorem keyCanon_scalar : ∀ {v : PyVal}, isScalar v = true → keyCanon v = v
  | .str _, _ => rfl
  | .int _, _ => rfl
  | .none, _ => rfl

theorem keyCanonList_eq_map : ∀ (l : List PyVal),
    keyCanonList l = l.map keyCanon
  | [] => rfl
  | x :: xs => by rw [keyCanonList, keyCanonList_eq_map xs, List.map_cons]

theorem keyCanonKVs_eq_map : ∀ (l : List (String × PyVal)),
    keyCanonKVs l = l.map (fun kv => (kv.1, keyCanon kv.2))
  | [] => rfl
  | kv :: kvs => by rw [keyCanonKVs, keyCanonKVs_eq_map kvs, List.map_cons]

theorem keyCanonList_scalar : ∀ {l : List PyVal}, l.all isScalar = true →
    keyCanonList l = l
  | [], _ => rfl
  | x :: xs, h => by
      simp only [List.all_cons, Bool.and_eq_true] at h
      rw [keyCanonList, keyCanon_scalar h.1, keyCanonList_scalar h.2]

/-! ## Comparisons and key-canonicalisation

Distinct well-formed values with the same canonical form differ only in
the ordering of dictionary entries somewhere inside, and Python cannot
compare dictionaries with `<`, so comparing such a pair raises; and a
comparison that does succeed is insensitive to canonicalising both
sides. -/

mutual

theorem pyLt_keyCanon_none : ∀ (x y : PyVal), pyWF x = true →
    pyWF y = true → keyCanon x = keyCanon y → x ≠ y →
    pyLt x y = Option.none
  | .int a, .int b, _, _, hc, hne => by
      have hab : a = b := by simpa [keyCanon] using hc
      exact absurd (by rw [hab]) hne
  | .str a, .str b, _, _, hc, hne => by
      have hab : a = b := by simpa [keyCanon] using hc
      exact absurd (by rw [hab]) hne
  | .none, .none, _, _, _, hne => absurd rfl hne
  | .list xs, .list ys, h1, h2, hc, hne => by
      have hc2 : keyCanonList xs = keyCanonList ys := by
        simpa [keyCanon] using hc
      have hne2 : xs ≠ ys := fun e => hne (by rw [e])
      simpa [pyLt] using pyLtList_keyCanon_none xs ys h1 h2 hc2 hne2
  | .set xs, .set ys, h1, h2, hc, hne => by
      have hxy : xs = ys := by
        have h0 := hc
        simp only [keyCanon, keyCanonList_scalar h1,
          keyCanonList_scalar h2, PyVal.set.injEq] at h0
        exact h0
      exact absurd (by rw [hxy]) hne
  | .dict _, .dict _, _, _, _, _ => rfl
  | .str _, .int _, _, _, _, _ => rfl
  | .str _, .none, _, _, _, _ => rfl
  | .str _, .list _, _, _, _, _ => rfl
  | .str _, .set _, _, _, _, _ => rfl
  | .str _, .dict _, _, _, _, _ => rfl
  | .int _, .str _, _, _, _, _ => rfl
  | .int _, .none, _, _, _, _ => rfl
  | .int _, .list _, _, _, _, _ => rfl
  | .int _, .set _, _, _, _, _ => rfl
  | .int _, .dict _, _, _, _, _ => rfl
  | .none, .str _, _, _, _, _ => rfl
  | .none, .int _, _, _, _, _ => rfl
  | .none, .list _, _, _, _, _ => rfl
  | .none, .set _, _, _, _, _ => rfl
  | .none, .dict _, _, _, _, _ => rfl
  | .list _, .str _, _, _, _, _ => rfl
  | .list _, .int _, _, _, _, _ => rfl
  | .list _, .none, _, _, _, _ => rfl
  | .list _, .set _, _, _, _, _ => rfl
  | .list _, .dict _, _, _, _, _ => rfl
  | .set _, .str _, _, _, _, _ => rfl
  | .set _, .int _, _, _, _, _ => rfl
  | .set _, .none, _, _, _, _ => rfl
  | .set _, .list _, _, _, _, _ => rfl
  | .set _, .dict _, _, _, _, _ => rfl
  | .dict _, .str _, _, _, _, _ => rfl
  | .dict _, .int _, _, _, _, _ => rfl
  | .dict _, .none, _, _, _, _ => rfl
  | .dict _, .list _, _, _, _, _ => rfl
  | .dict _, .set _, _, _, _, _ => rfl

theorem pyLtList_keyCanon_none : ∀ (xs ys : List PyVal),
    pyWFList xs = true → pyWFList ys = true →
    keyCanonList xs = keyCanonList ys → xs ≠ ys →
    pyLtList xs ys = Option.none
  | [], [], _, _, _, hne => absurd rfl hne
  | [], _ :: _, _, _, hc, _ => by simp [keyCanonList] at hc
  | _ :: _, [], _, _, hc, _ => by simp [keyCanonList] at hc
  | x :: xs, y :: ys, h1, h2, hc, hne => by
      rw [pyWFList, Bool.and_eq_true] at h1
      rw [pyWFList, Bool.and_eq_true] at h2
      simp only [keyCanonList, List.cons.injEq] at hc
      by_cases hxy : x = y
      · have hb : pyBeq x y = true := (pyBeq_eq x y).mpr hxy
        have hne2 : xs ≠ ys := fun e => hne (by rw [hxy, e])
        simpa [pyLtList, hb] using
          pyLtList_keyCanon_none xs ys h1.2 h2.2 hc.2 hne2
      · have hb : pyBeq x y = false :=
          Bool.eq_false_iff.mpr (fun e => hxy ((pyBeq_eq x y).mp e))
        simpa [pyLtList, hb] using
          pyLt_keyCanon_none x y h1.1 h2.1 hc.1 hxy

end

mutual

theorem pyLt_keyCanon_some : ∀ (x y : PyVal) (b : Bool), pyWF x = true →
    pyWF y = true → pyLt x y = some b →
    pyLt (keyCanon x) (keyCanon y) = some b
  | .int _, .int _, _, _, _, h => h
  | .str _, .str _, _, _, _, h => h
  | .list xs, .list ys, b, h1, h2, h => by
      simpa [pyLt, keyCanon] using
        pyLtList_keyCanon_some xs ys b h1 h2 (by simpa [pyLt] using h)
  | .set xs, .set ys, b, h1, h2, h => by
      show pyLt (.set (keyCanonList xs)) (.set (keyCanonList ys)) = some b
      rw [keyCanonList_scalar h1, keyCanonList_scalar h2]
      exact h
  | .none, .none, _, _, _, h => by simp [pyLt] at h
  | .dict _, .dict _, _, _, _, h => by simp [pyLt] at h
  | .str _, .int _, _, _, _, h => by simp [pyLt] at h
  | .str _, .none, _, _, _, h => by simp [pyLt] at h
  | .str _, .list _, _, _, _, h => by simp [pyLt] at h
  | .str _, .set _, _, _, _, h => by simp [pyLt] at h
  | .str _, .dict _, _, _, _, h => by simp [pyLt] at h
  | .int _, .str _, _, _, _, h => by simp [pyLt] at h
  | .int _, .none, _, _, _, h => by simp [pyLt] at h
  | .int _, .list _, _, _, _, h => by simp [pyLt] at h
  | .int _, .set _, _, _, _, h => by simp [pyLt] at h
  | .int _, .dict _, _, _, _, h => by simp [pyLt] at h
  | .none, .str _, _, _, _, h => by simp [pyLt] at h
  | .none, .int _, _, _, _, h => by simp [pyLt] at h
  | .none, .list _, _, _, _, h => by simp [pyLt] at h
  | .none, .set _, _, _, _, h => by simp [pyLt] at h
  | .none, .dict _, _, _, _, h => by simp [pyLt] at h
  | .list _, .str _, _, _, _, h => by simp [pyLt] at h
  | .list _, .int _, _, _, _, h => by simp [pyLt] at h
  | .list _, .none, _, _, _, h => by simp [pyLt] at h
  | .list _, .set _, _, _, _, h => by simp [pyLt] at h
  | .list _, .dict _, _, _, _, h => by simp [pyLt] at h
  | .set _, .str _, _, _, _, h => by simp [pyLt] at h
  | .set _, .int _, _, _, _, h => by simp [pyLt] at h
  | .set _, .none, _, _, _, h => by simp [pyLt] at h
  | .set _, .list _, _, _, _, h => by simp [pyLt] at h
  | .set _, .dict _, _, _, _, h => by simp [pyLt] at h
  | .dict _, .str _, _, _, _, h => by simp [pyLt] at h
  | .dict _, .int _, _, _, _, h => by simp [pyLt] at h
  | .dict _, .none, _, _, _, h => by simp [pyLt] at h
  | .dict _, .list _, _, _, _, h => by simp [pyLt] at h
  | .dict _, .set _, _, _, _, h => by simp [pyLt] at h

theorem pyLtList_keyCanon_some : ∀ (xs ys : List PyVal) (b : Bool),
    pyWFList xs = true → pyWFList ys = true → pyLtList xs ys = some b →
    pyLtList (keyCanonList xs) (keyCanonList ys) = some b
  | [], [], _, _, _, h => h
  | [], _ :: _, _, _, _, h => h
  | _ :: _, [], _, _, _, h => h
  | x :: xs, y :: ys, b, h1, h2, h => by
      rw [pyWFList, Bool.and_eq_true] at h1
      rw [pyWFList, Bool.and_eq_true] at h2
      by_cases hxy : x = y
      · have hb : pyBeq x y = true := (pyBeq_eq x y).mpr hxy
        have hbc : pyBeq (keyCanon x) (keyCanon y) = true :=
          (pyBeq_eq _ _).mpr (by rw [hxy])
        have h3 : pyLtList xs ys = some b := by simpa [pyLtList, hb] using h
        simpa [keyCanonList, pyLtList, hbc] using
          pyLtList_keyCanon_some xs ys b h1.2 h2.2 h3
      · have hb : pyBeq x y = false :=
          Bool.eq_false_iff.mpr (fun e => hxy ((pyBeq_eq x y).mp e))
        have h3 : pyLt x y = some b := by simpa [pyLtList, hb] using h
        have hcc : keyCanon x ≠ keyCanon y := by
          intro e
          have h4 := pyLt_keyCanon_none x y h1.1 h2.1 e hxy
          rw [h4] at h3
          simp at h3
        have hbc : pyBeq (keyCanon x) (keyCanon y) = false :=
          Bool.eq_false_iff.mpr (fun e => hcc ((pyBeq_eq _ _).mp e))
        simpa [keyCanonList, pyLtList, hbc] using
          pyLt_keyCanon_some x y b h1.1 h2.1 h3

end

/-! ## Transport of the pair sort along key-canonicalisation -/

theorem pyInsertP_mem : ∀ (acc : List (PyVal × Frozen)) (x : PyVal × Frozen)
    (out : List (PyVal × Frozen)), pyInsertP x acc = some out →
    ∀ p ∈ out, p = x ∨ p ∈ acc
  | [], x, out, h => by
      simp only [pyInsertP, Option.some.injEq] at h
      subst h
      simp
  | a :: as, x, out, h => by
      cases hlt : pyLt x.1 a.1 with
      | none =>
        simp only [pyInsertP, hlt] at h
        exact Option.noConfusion h
      | some b =>
        cases b with
        | true =>
          simp only [pyInsertP, hlt, Option.some.injEq] at h
          subst h
          intro p hp
          rcases List.mem_cons.mp hp with rfl | hp2
          · exact Or.inl rfl
          · exact Or.inr hp2
        | false =>
          simp only [pyInsertP, hlt] at h
          obtain ⟨out2, hout2, rfl⟩ := Option.map_eq_some'.mp h
          intro p hp
          rcases List.mem_cons.mp hp with rfl | hp2
          · exact Or.inr (by simp)
          · rcases pyInsertP_mem as x out2 hout2 p hp2 with h' | h'
            · exact Or.inl h'
            · exact Or.inr (by simp [h'])

theorem pyInsertP_canon : ∀ (acc : List (PyVal × Frozen)) (x : PyVal × Frozen)
    (out : List (PyVal × Frozen)),
    pyWF x.1 = true → (∀ p ∈ acc, pyWF p.1 = true) →
    pyInsertP x acc = some out →
    pyInsertP (keyCanon x.1, x.2)
        (acc.map (fun p => (keyCanon p.1, p.2))) =
      some (out.map (fun p => (keyCanon p.1, p.2)))
  | [], x, out, _, _, h => by
      simp only [pyInsertP, Option.some.injEq] at h
      subst h
      rfl
  | a :: as, x, out, hwx, hwacc, h => by
      have hwa : pyWF a.1 = true := hwacc a (by simp)
      cases hlt : pyLt x.1 a.1 with
      | none =>
        simp only [pyInsertP, hlt] at h
        exact Option.noConfusion h
      | some b =>
        cases b with
        | true =>
          simp only [pyInsertP, hlt, Option.some.injEq] at h
          subst h
          have hc := pyLt_keyCanon_some x.1 a.1 true hwx hwa hlt
          simp [pyInsertP, hc]
        | false =>
          simp only [pyInsertP, hlt] at h
          obtain ⟨out2, hout2, rfl⟩ := Option.map_eq_some'.mp h
          have hc := pyLt_keyCanon_some x.1 a.1 false hwx hwa hlt
          have hIH := pyInsertP_canon as x out2 hwx
            (fun p hp => hwacc p (by simp [hp])) hout2
          simp [pyInsertP, hc, hIH]

theorem pySortPAux_canon : ∀ (l acc out : List (PyVal × Frozen)),
    (∀ p ∈ l, pyWF p.1 = true) → (∀ p ∈ acc, pyWF p.1 = true) →
    List.foldlM (fun acc x => pyInsertP x acc) acc l = some out →
    List.foldlM (fun acc x => pyInsertP x acc)
        (acc.map (fun p => (keyCanon p.1, p.2)))
        (l.map (fun p => (keyCanon p.1, p.2))) =
      some (out.map (fun p => (keyCanon p.1, p.2)))
  | [], acc, out, _, _, h => by
      simp only [List.foldlM_nil] at h ⊢
      obtain rfl : acc = out := by simpa using h
      rfl
  | x :: l, acc, out, hl, hacc, h => by
      simp only [List.foldlM_cons] at h
      obtain ⟨acc2, hacc2, hrest⟩ := Option.bind_eq_some.mp h
      have hwx : pyWF x.1 = true := hl x (by simp)
      have hI := pyInsertP_canon acc x acc2 hwx hacc hacc2
      have hacc2wf : ∀ p ∈ acc2, pyWF p.1 = true := fun p hp =>
        (pyInsertP_mem acc x acc2 hacc2 p hp).elim
          (fun e => e ▸ hwx) (fun hm => hacc p hm)
      have hrec := pySortPAux_canon l acc2 out
        (fun p hp => hl p (by simp [hp])) hacc2wf hrest
      simp only [List.map_cons, List.foldlM_cons, hI]
      simpa using hrec

theorem pySortP_canon (l out : List (PyVal × Frozen))
    (hl : ∀ p ∈ l, pyWF p.1 = true) (h : pySortP l = some out) :
    pySortP (l.map (fun p => (keyCanon p.1, p.2))) =
      some (out.map (fun p => (keyCanon p.1, p.2))) := by
  have h2 := pySortPAux_canon l [] out hl (by simp) h
  simpa [pySortP] using h2

/-! ## `freeze` is insensitive to dictionary-key ordering -/

mutual

theorem freeze_keyCanon : ∀ (x : PyVal), pyWF x = true →
    ∀ f, freeze x = some f → freeze (keyCanon x) = some f
  | .str _, _, _, h => h
  | .int _, _, _, h => h
  | .none, _, _, h => h
  | .set xs, hw, f, h => by
      show freeze (.set (keyCanonList xs)) = some f
      rw [keyCanonList_scalar hw]
      exact h
  | .list xs, hw, f, h => by
      simp only [freeze] at h
      obtain ⟨fs, hfs, hmap⟩ := Option.bind_eq_some.mp h
      obtain ⟨sp, hsp, rfl⟩ := Option.map_eq_some'.mp hmap
      have hallsome : ∀ y ∈ xs, (freeze y).isSome = true :=
        (freezeList_isSome xs).mp (by rw [hfs]; rfl)
      have hfs2 : fs = xs.map freezeD := by
        have h2 := freezeList_eq_map xs hallsome
        rw [hfs] at h2
        exact (Option.some.injEq _ _).mp h2
      have hcfs : freezeList (keyCanonList xs) = some fs := by
        rw [keyCanonList_eq_map]
        have hallsome2 : ∀ y ∈ xs.map keyCanon, (freeze y).isSome = true := by
          intro y hy
          obtain ⟨x0, hx0, rfl⟩ := List.mem_map.mp hy
          obtain ⟨f0, hf0⟩ := Option.isSome_iff_exists.mp (hallsome x0 hx0)
          rw [freeze_keyCanonList_pt xs hw x0 hx0 f0 hf0]
          rfl
        rw [freezeList_eq_map _ hallsome2, List.map_map, hfs2]
        congr 1
        apply List.map_congr_left
        intro a ha
        obtain ⟨f0, hf0⟩ := Option.isSome_iff_exists.mp (hallsome a ha)
        show freezeD (keyCanon a) = freezeD a
        rw [freezeD_eq (freeze_keyCanonList_pt xs hw a ha f0 hf0),
          freezeD_eq hf0]
      have hzip : (keyCanonList xs).zip fs =
          (xs.zip fs).map (fun p => (keyCanon p.1, p.2)) := by
        rw [keyCanonList_eq_map, List.zip_map_left]
        apply List.map_congr_left
        intro p _
        cases p
        rfl
      have hzipwf : ∀ p ∈ xs.zip fs, pyWF p.1 = true := by
        intro p hp
        obtain ⟨a, b⟩ := p
        exact pyWFList_mem hw a (List.of_mem_zip hp).1
      have hsp2 := pySortP_canon (xs.zip fs) sp hzipwf hsp
      show freeze (.list (keyCanonList xs)) = some _
      simp only [freeze, hcfs, Option.some_bind, hzip, hsp2, Option.map_some',
        Option.some.injEq, List.map_map]
      congr 1
  | .dict kvs, hw, f, h => by
      simp only [freeze] at h
      obtain ⟨fkvs, hfk, rfl⟩ := Option.map_eq_some'.mp h
      have hw2 : (decide ((kvs.map Prod.fst).Nodup) && pyWFKVs kvs) = true := hw
      rw [Bool.and_eq_true, decide_eq_true_eq] at hw2
      obtain ⟨hnd, hwkvs⟩ := hw2
      have hallsome : ∀ kv ∈ kvs, (freeze kv.2).isSome = true :=
        (freezeKVs_isSome kvs).mp (by rw [hfk]; rfl)
      have hfk2 : fkvs = kvs.map (fun kv => (kv.1, freezeD kv.2)) := by
        have h2 := freezeKVs_eq_map kvs hallsome
        rw [hfk] at h2
        exact (Option.some.injEq _ _).mp h2
      have hallsomeS : ∀ kv ∈ keySort Prod.fst (keyCanonKVs kvs),
          (freeze kv.2).isSome = true := by
        intro kv hkv
        have hm := (mem_keySort _ _ _).mp hkv
        rw [keyCanonKVs_eq_map] at hm
        obtain ⟨kv0, hkv0, rfl⟩ := List.mem_map.mp hm
        obtain ⟨f0, hf0⟩ := Option.isSome_iff_exists.mp (hallsome kv0 hkv0)
        rw [freeze_keyCanonKVs_pt kvs hwkvs kv0 hkv0 f0 hf0]
        rfl
      have hSmap : ((keySort Prod.fst (keyCanonKVs kvs)).map
            (fun kv => (kv.1, freezeD kv.2))).Perm fkvs := by
        have hp1 : ((keySort Prod.fst (keyCanonKVs kvs)).map
              (fun kv => (kv.1, freezeD kv.2))).Perm
            ((keyCanonKVs kvs).map (fun kv => (kv.1, freezeD kv.2))) :=
          (keySort_perm Prod.fst (keyCanonKVs kvs)).map _
        have he : (keyCanonKVs kvs).map (fun kv => (kv.1, freezeD kv.2)) =
            fkvs := by
          rw [keyCanonKVs_eq_map, List.map_map, hfk2]
          apply List.map_congr_left
          intro kv hkv
          obtain ⟨f0, hf0⟩ := Option.isSome_iff_exists.mp (hallsome kv hkv)
          show (kv.1, freezeD (keyCanon kv.2)) = (kv.1, freezeD kv.2)
          rw [freezeD_eq (freeze_keyCanonKVs_pt kvs hwkvs kv hkv f0 hf0),
            freezeD_eq hf0]
        rw [he] at hp1
        exact hp1
      have hndf : (fkvs.map Prod.fst).Nodup := by
        rw [hfk2, List.map_map]
        exact hnd
      have hinj : ∀ a ∈ (keySort Prod.fst (keyCanonKVs kvs)).map
            (fun kv => (kv.1, freezeD kv.2)),
          ∀ b ∈ (keySort Prod.fst (keyCanonKVs kvs)).map
            (fun kv => (kv.1, freezeD kv.2)),
          a.1 = b.1 → a = b := by
        have hnd2 : (((keySort Prod.fst (keyCanonKVs kvs)).map
            (fun kv => (kv.1, freezeD kv.2))).map Prod.fst).Nodup :=
          (List.Perm.nodup_iff (hSmap.map Prod.fst)).mpr hndf
        exact List.inj_on_of_nodup_map hnd2
      have hsort : keySort Prod.fst ((keySort Prod.fst (keyCanonKVs kvs)).map
            (fun kv => (kv.1, freezeD kv.2))) = keySort Prod.fst fkvs :=
        keySort_eq_of_perm Prod.fst hSmap hinj
      show freeze (.dict (keySort Prod.fst (keyCanonKVs kvs))) = some _
      simp only [freeze, freezeKVs_eq_map _ hallsomeS, Option.map_some',
        Option.some.injEq]
      rw [hsort]
termination_by x => sizeOf x

theorem freeze_keyCanonList_pt : ∀ (l : List PyVal), pyWFList l = true →
    ∀ x ∈ l, ∀ f, freeze x = some f → freeze (keyCanon x) = some f
  | [], _, x, hx, _, _ => absurd hx (by simp)
  | y :: ys, hw, x, hx, f, h => by
      rw [pyWFList, Bool.and_eq_true] at hw
      rcases List.mem_cons.mp hx with heq | hx2
      · rw [heq] at h
        rw [heq]
        exact freeze_keyCanon y hw.1 f h
      · exact freeze_keyCanonList_pt ys hw.2 x hx2 f h
termination_by l => sizeOf l

theorem freeze_keyCanonKVs_pt : ∀ (l : List (String × PyVal)),
    pyWFKVs l = true →
    ∀ kv ∈ l, ∀ f, freeze kv.2 = some f → freeze (keyCanon kv.2) = some f
  | [], _, kv, hkv, _, _ => absurd hkv (by simp)
  | (k, v) :: ys, hw, kv, hkv, f, h => by
      rw [pyWFKVs, Bool.and_eq_true] at hw
      rcases List.mem_cons.mp hkv with heq | hkv2
      · rw [heq] at h
        rw [heq]
        exact freeze_keyCanon v hw.1 f h
      · exact freeze_keyCanonKVs_pt ys hw.2 kv hkv2 f h
termination_by l => sizeOf l

end

instance : DecidableEq PyVal :=
  fun a b => decidable_of_iff (pyBeq a b = true) (pyBeq_eq a b)

/-! ## Claim C1 -/

theorem freeze_eq_of_keyCanon_eq (d1 d2 : PyVal) (w1 : pyWF d1 = true)
    (w2 : pyWF d2 = true) (hc : keyCanon d1 = keyCanon d2)
    (h1 : (freeze d1).isSome = true) (h2 : (freeze d2).isSome = true) :
    freeze d1 = freeze d2 := by
  obtain ⟨f1, hf1⟩ := Option.isSome_iff_exists.mp h1
  obtain ⟨f2, hf2⟩ := Option.isSome_iff_exists.mp h2
  have c1 := freeze_keyCanon d1 w1 f1 hf1
  have c2 := freeze_keyCanon d2 w2 f2 hf2
  rw [hc] at c1
  rw [c2] at c1
  rw [hf1, hf2]
  exact c1.symm

/-- C1: the config filename derived by `generate_config_files` is
stable under key-reordering of the input mapping.  Two well-formed
mappings (`pyWF`: distinct dict keys, hashable set elements) that are
equal up to the ordering of their possibly nested dictionary keys
(equal `keyCanon` images) and on which the pipeline produces a
filename at all receive the same filename, for every (process-fixed)
hash function `h`. -/
theorem C1_filename_stable_under_key_reordering
    (h : Frozen → Int) (d1 d2 : PyVal) (w1 : pyWF d1 = true)
    (w2 : pyWF d2 = true) (hc : keyCanon d1 = keyCanon d2)
    (h1 : (freeze d1).isSome = true) (h2 : (freeze d2).isSome = true) :
    configFilename h d1 = configFilename h d2 := by
  unfold configFilename hash_dict
  rw [freeze_eq_of_keyCanon_eq d1 d2 w1 w2 hc h1 h2]

theorem strLt_of_toList {a b : String} (h : a.toList < b.toList) :
    a < b :=
  String.lt_iff_toList_lt.mpr h

theorem strNotLt_of_toList {a b : String} (h : ¬ a.toList < b.toList) :
    ¬ a < b :=
  fun hc => h (String.lt_iff_toList_lt.mp hc)

/-- Witness for C1 at the concrete key-reordered configs
`exampleConfigA`/`exampleConfigB`. -/
theorem C1_witness :
    pyWF exampleConfigA = true ∧ pyWF exampleConfigB = true ∧
    keyCanon exampleConfigA = keyCanon exampleConfigB ∧
    (freeze exampleConfigA).isSome = true ∧
    (freeze exampleConfigB).isSome = true ∧
    configFilename (fun _ => (-7 : Int)) exampleConfigA =
      configFilename (fun _ => (-7 : Int)) exampleConfigB := by
  have h1 : ("a" : String) < "b" := strLt_of_toList (by decide)
  have h2 : ¬ (("c" : String) < "a") := strNotLt_of_toList (by decide)
  have h3 : ¬ (("c" : String) < "b") := strNotLt_of_toList (by decide)
  have h4 : ¬ (("b" : String) < "a") := strNotLt_of_toList (by decide)
  have h5 : ("b" : String) < "c" := strLt_of_toList (by decide)
  have h6 : ("x" : String) < "y" := strLt_of_toList (by decide)
  have h7 : ¬ (("y" : String) < "x") := strNotLt_of_toList (by decide)
  have hc : keyCanon exampleConfigA = keyCanon exampleConfigB := by
    simp [exampleConfigA, exampleConfigB, keyCanon, keyCanonKVs,
      keyCanonList, keySort, keyInsert, h1, h2, h3, h4, h5, h6, h7]
  exact ⟨rfl, rfl, hc, rfl, rfl,
    C1_filename_stable_under_key_reordering (fun _ => (-7 : Int))
      exampleConfigA exampleConfigB rfl rfl hc rfl rfl⟩

/-! ## Claim C2 -/

theorem toString_ite_neg_natAbs (n : Int) :
    toString (if n < 0 then -n else n) = toString n.natAbs := by
  cases n with
  | ofNat m =>
      have hnl : ¬ ((Int.ofNat m) < 0) := Int.not_lt.mpr (Int.ofNat_nonneg m)
      rw [if_neg hnl]
      rfl
  | negSucc m =>
      have hnl : (Int.negSucc m) < 0 := Int.negSucc_lt_zero m
      rw [if_pos hnl]
      rfl

/-- C2: the config-naming step is exactly: canonicalise the mapping
(`freeze`, which recursively sorts dictionary entries and list/set
elements), hash the canonical form (`hash_dict`), take the absolute
value of that hash, and write `model_config_dspy_{N}.yaml` where `N`
is the non-negative value: the if-negation the source performs equals
`Int.natAbs`. -/
theorem C2_config_naming_pipeline (h : Frozen → Int) (d : PyVal) :
    configFilename h d = (hash_dict h d).map (fun n =>
      "model_config_dspy_" ++ toString n.natAbs ++ ".yaml") := by
  unfold configFilename hash_dict
  cases hf : freeze d with
  | none => rfl
  | some f =>
      simp only [Option.map_some', Option.some.injEq]
      rw [toString_ite_neg_natAbs]

/-! ## Sorting lists of one scalar kind

On a list whose elements all embed one totally ordered scalar type,
the Python sort agrees with the keyed insertion sort of the underlying
values; it therefore succeeds and its result only depends on the
multiset of elements. -/

theorem pyInsert_emb {α : Type} [LinearOrder α] (emb : α → PyVal)
    (hcmp : ∀ a b : α, pyLt (emb a) (emb b) = some (decide (a < b))) :
    ∀ (x : α) (l : List α),
      pyInsert (emb x) (l.map emb) = some ((keyInsert id x l).map emb)
  | _, [] => rfl
  | x, y :: ys => by
      rw [List.map_cons, pyInsert, hcmp]
      by_cases hxy : x < y
      · simp [keyInsert, hxy]
      · simp [keyInsert, hxy, pyInsert_emb emb hcmp x ys]

theorem pySortedAux_emb {α : Type} [LinearOrder α] (emb : α → PyVal)
    (hcmp : ∀ a b : α, pyLt (emb a) (emb b) = some (decide (a < b))) :
    ∀ (l acc : List α),
      List.foldlM (fun acc x => pyInsert x acc) (acc.map emb) (l.map emb) =
        some ((l.foldl (fun acc x => keyInsert id x acc) acc).map emb)
  | [], acc => by simp
  | x :: l, acc => by
      simp only [List.map_cons, List.foldlM_cons,
        pyInsert_emb emb hcmp x acc, Option.some_bind]
      exact pySortedAux_emb emb hcmp l (keyInsert id x acc)

theorem pySorted_emb {α : Type} [LinearOrder α] (emb : α → PyVal)
    (hcmp : ∀ a b : α, pyLt (emb a) (emb b) = some (decide (a < b)))
    (l : List α) :
    pySorted (l.map emb) = some ((keySort id l).map emb) := by
  have h := pySortedAux_emb emb hcmp l []
  simpa [pySorted, keySort] using h

theorem pyInsertP_emb {α : Type} [LinearOrder α] (emb : α → PyVal)
    (femb : α → Frozen)
    (hcmp : ∀ a b : α, pyLt (emb a) (emb b) = some (decide (a < b))) :
    ∀ (x : α) (l : List α),
      pyInsertP (emb x, femb x) (l.map (fun a => (emb a, femb a))) =
        some ((keyInsert id x l).map (fun a => (emb a, femb a)))
  | _, [] => rfl
  | x, y :: ys => by
      rw [List.map_cons, pyInsertP]
      simp only []
      rw [hcmp]
      by_cases hxy : x < y
      · simp [keyInsert, hxy]
      · simp [keyInsert, hxy, pyInsertP_emb emb femb hcmp x ys]

theorem pySortPAux_emb {α : Type} [LinearOrder α] (emb : α → PyVal)
    (femb : α → Frozen)
    (hcmp : ∀ a b : α, pyLt (emb a) (emb b) = some (decide (a < b))) :
    ∀ (l acc : List α),
      List.foldlM (fun acc x => pyInsertP x acc)
          (acc.map (fun a => (emb a, femb a)))
          (l.map (fun a => (emb a, femb a))) =
        some ((l.foldl (fun acc x => keyInsert id x acc) acc).map
          (fun a => (emb a, femb a)))
  | [], acc => by simp
  | x :: l, acc => by
      simp only [List.map_cons, List.foldlM_cons,
        pyInsertP_emb emb femb hcmp x acc, Option.some_bind]
      exact pySortPAux_emb emb femb hcmp l (keyInsert id x acc)

theorem freezeList_emb {α : Type} (emb : α → PyVal) (femb : α → Frozen)
    (hfr : ∀ a, freeze (emb a) = some (femb a)) :
    ∀ l : List α, freezeList (l.map emb) = some (l.map femb)
  | [] => rfl
  | x :: l => by
      rw [List.map_cons, freezeList, hfr, List.map_cons,
        freezeList_emb emb femb hfr l]
      rfl

theorem freeze_scalar_list {α : Type} [LinearOrder α] (emb : α → PyVal)
    (femb : α → Frozen)
    (hcmp : ∀ a b : α, pyLt (emb a) (emb b) = some (decide (a < b)))
    (hfr : ∀ a, freeze (emb a) = some (femb a)) (l : List α) :
    freeze (.list (l.map emb)) =
      some (.tup ((keySort id l).map femb)) := by
  have hfl := freezeList_emb emb femb hfr l
  have hps : pySortP (l.map (fun a => (emb a, femb a))) =
      some ((keySort id l).map (fun a => (emb a, femb a))) := by
    have h := pySortPAux_emb emb femb hcmp l []
    simpa [pySortP, keySort] using h
  simp only [freeze, hfl, Option.some_bind, List.zip_map', hps,
    Option.map_some', Option.some.injEq, List.map_map]
  rfl

theorem keySort_id_eq_of_perm {α : Type} [LinearOrder α] {l1 l2 : List α}
    (hp : l1.Perm l2) : keySort id l1 = keySort id l2 :=
  keySort_eq_of_perm id hp (fun _ _ _ _ h => h)

theorem map_int_repr : ∀ (ys : List PyVal),
    (∀ v ∈ ys, ∃ n : Int, v = .int n) →
    ∃ ms : List Int, ys = ms.map PyVal.int
  | [], _ => ⟨[], rfl⟩
  | v :: vs, h => by
      obtain ⟨n, rfl⟩ := h v (by simp)
      obtain ⟨ms, rfl⟩ := map_int_repr vs (fun w hw => h w (by simp [hw]))
      exact ⟨n :: ms, rfl⟩

theorem map_str_repr : ∀ (ys : List PyVal),
    (∀ v ∈ ys, ∃ s : String, v = .str s) →
    ∃ ts : List String, ys = ts.map PyVal.str
  | [], _ => ⟨[], rfl⟩
  | v :: vs, h => by
      obtain ⟨t, rfl⟩ := h v (by simp)
      obtain ⟨ts, rfl⟩ := map_str_repr vs (fun w hw => h w (by simp [hw]))
      exact ⟨t :: ts, rfl⟩

theorem perm_of_map_inj {α β : Type} {f : α → β}
    (hinj : Function.Injective f) {l1 l2 : List α}
    (h : (l1.map f).Perm (l2.map f)) : l1.Perm l2 := by
  rw [← Multiset.coe_eq_coe] at h ⊢
  have h2 : Multiset.map f ↑l1 = Multiset.map f ↑l2 := by
    simpa using h
  exact Multiset.map_injective hinj h2

theorem freeze_dict_single (k : String) (v : PyVal) (fv : Frozen)
    (hv : freeze v = some fv) :
    freeze (.dict [(k, v)]) =
      some (.tup [.tup [.str k, fv]]) := by
  simp [freeze, freezeKVs, hv, keySort, keyInsert]

theorem freeze_dict_single_none (k : String) (v : PyVal)
    (hv : freeze v = Option.none) :
    freeze (.dict [(k, v)]) = Option.none := by
  simp [freeze, freezeKVs, hv]

theorem decide_irrel {p : Prop} (i1 i2 : Decidable p) :
    @decide p i1 = @decide p i2 := by
  cases Subsingleton.elim i1 i2
  rfl

/-- C3: `freeze` sorts list elements before hashing.  A config mapping
whose value is the mixed-type list `[1, "a"]` makes
`generate_config_files` raise instead of producing a config file; and
for a list of mutually orderable elements (all of one ordered scalar
type) the sort succeeds and the filename does not depend on the order
of the list elements. -/
theorem C3_list_sorting_failure_and_invariance (h : Frozen → Int)
    (k : String) (xs ys : List PyVal) (hord : MutuallyOrderable xs)
    (hperm : xs.Perm ys) :
    (pySorted xs).isSome = true ∧
    configFilename h (.dict [(k, .list xs)]) =
      configFilename h (.dict [(k, .list ys)]) ∧
    configFilename h (.dict [(k, .list [.int 1, .str "a"])]) =
      Option.none := by
  refine ⟨?_, ?_, ?_⟩
  · rcases hord with ⟨ns, rfl⟩ | ⟨ss, rfl⟩
    · rw [pySorted_emb PyVal.int (fun a b => congrArg some (decide_irrel _ _)) ns]
      rfl
    · rw [pySorted_emb PyVal.str (fun a b => congrArg some (decide_irrel _ _)) ss]
      rfl
  · rcases hord with ⟨ns, rfl⟩ | ⟨ss, rfl⟩
    · obtain ⟨ms, rfl⟩ := map_int_repr ys (fun v hv => by
        have hv2 : v ∈ ns.map PyVal.int := hperm.symm.subset hv
        obtain ⟨n, _, rfl⟩ := List.mem_map.mp hv2
        exact ⟨n, rfl⟩)
      have hnm : ns.Perm ms :=
        perm_of_map_inj (fun a b e => PyVal.int.inj e) hperm
      have hs : keySort id ns = keySort id ms := keySort_id_eq_of_perm hnm
      have f1 := freeze_scalar_list PyVal.int Frozen.int
        (fun a b => congrArg some (decide_irrel _ _)) (fun _ => rfl) ns
      have f2 := freeze_scalar_list PyVal.int Frozen.int
        (fun a b => congrArg some (decide_irrel _ _)) (fun _ => rfl) ms
      rw [hs] at f1
      rw [configFilename, configFilename, hash_dict, hash_dict,
        freeze_dict_single k _ _ f1, freeze_dict_single k _ _ f2]
    · obtain ⟨ts, rfl⟩ := map_str_repr ys (fun v hv => by
        have hv2 : v ∈ ss.map PyVal.str := hperm.symm.subset hv
        obtain ⟨t, _, rfl⟩ := List.mem_map.mp hv2
        exact ⟨t, rfl⟩)
      have hst : ss.Perm ts :=
        perm_of_map_inj (fun a b e => PyVal.str.inj e) hperm
      have hs : keySort id ss = keySort id ts := keySort_id_eq_of_perm hst
      have f1 := freeze_scalar_list PyVal.str Frozen.str
        (fun a b => congrArg some (decide_irrel _ _)) (fun _ => rfl) ss
      have f2 := freeze_scalar_list PyVal.str Frozen.str
        (fun a b => congrArg some (decide_irrel _ _)) (fun _ => rfl) ts
      rw [hs] at f1
      rw [configFilename, configFilename, hash_dict, hash_dict,
        freeze_dict_single k _ _ f1, freeze_dict_single k _ _ f2]
  · have hmix : freeze (PyVal.list [.int 1, .str "a"]) = Option.none := rfl
    rw [configFilename, hash_dict, freeze_dict_single_none k _ hmix]
    rfl

/-- Witness for C3 at a concrete two-element integer list and its
reversal. -/
theorem C3_witness :
    MutuallyOrderable [PyVal.int 2, PyVal.int 1] ∧
    ([PyVal.int 2, PyVal.int 1]).Perm [PyVal.int 1, PyVal.int 2] ∧
    ((pySorted [PyVal.int 2, PyVal.int 1]).isSome = true ∧
      configFilename (fun _ => (3 : Int))
          (.dict [("context_length", .list [PyVal.int 2, PyVal.int 1])]) =
        configFilename (fun _ => (3 : Int))
          (.dict [("context_length", .list [PyVal.int 1, PyVal.int 2])]) ∧
      configFilename (fun _ => (3 : Int))
          (.dict [("context_length", .list [.int 1, .str "a"])]) =
        Option.none) :=
  ⟨Or.inl ⟨[2, 1], rfl⟩, List.Perm.swap (PyVal.int 1) (PyVal.int 2) [],
    C3_list_sorting_failure_and_invariance (fun _ => (3 : Int))
      "context_length" [PyVal.int 2, PyVal.int 1]
      [PyVal.int 1, PyVal.int 2] (Or.inl ⟨[2, 1], rfl⟩)
      (List.Perm.swap (PyVal.int 1) (PyVal.int 2) [])⟩

/-! ## Dictionary lookup facts -/

theorem dictGet_nil (k : String) :
    dictGet ([] : List (String × PyVal)) k = Option.none := rfl

theorem dictGet_cons (kv : String × PyVal) (rest : List (String × PyVal))
    (k : String) :
    dictGet (kv :: rest) k =
      (if kv.1 = k then some kv.2 else dictGet rest k) := by
  unfold dictGet
  by_cases h : kv.1 = k
  · rw [List.find?_cons_of_pos _ (by simpa using h), if_pos h]
    rfl
  · rw [List.find?_cons_of_neg _ (by simpa using h), if_neg h]

theorem dictGet_eq_none_iff : ∀ (d : List (String × PyVal)) (k : String),
    dictGet d k = Option.none ↔ k ∉ dictKeys d
  | [], k => by simp [dictGet, dictKeys]
  | kv :: rest, k => by
      rw [dictGet_cons]
      by_cases hk : kv.1 = k
      · rw [if_pos hk]
        simp [dictKeys, hk]
      · rw [if_neg hk]
        simp [dictGet_eq_none_iff rest k, dictKeys, Ne.symm hk]

theorem dictGet_dictSet : ∀ (d : List (String × PyVal)) (k k2 : String)
    (v : PyVal),
    dictGet (dictSet d k v) k2 =
      (if k2 = k then some v else dictGet d k2)
  | [], k, k2, v => by
      rw [dictSet, dictGet_cons]
      by_cases hk2 : k2 = k
      · simp [hk2]
      · rw [if_neg (show ¬ (k, v).1 = k2 from fun e => hk2 e.symm),
          if_neg hk2]
  | kv :: rest, k, k2, v => by
      rw [dictSet]
      by_cases hkv : kv.1 = k
      · rw [if_pos hkv, dictGet_cons, dictGet_cons]
        by_cases hk2 : k2 = k
        · simp [hk2]
        · rw [if_neg (show ¬ (k, v).1 = k2 from fun e => hk2 e.symm),
            if_neg hk2,
            if_neg (show ¬ kv.1 = k2 by rw [hkv]; exact fun e => hk2 e.symm)]
      · rw [if_neg hkv, dictGet_cons, dictGet_cons]
        by_cases hkv2 : kv.1 = k2
        · have hk2 : ¬ k2 = k := fun e => hkv (hkv2.trans e)
          simp [hkv2, hk2]
        · simp only [hkv2, if_false]
          rw [dictGet_dictSet rest k k2 v]

theorem dictGet_dictPop_self (d : List (String × PyVal)) (k : String) :
    dictGet (dictPop d k) k = Option.none := by
  apply (dictGet_eq_none_iff _ _).mpr
  intro hmem
  simp only [dictPop, dictKeys, List.mem_map] at hmem
  obtain ⟨kv, hkv, hfst⟩ := hmem
  have hf := List.of_mem_filter hkv
  simp only [decide_eq_true_eq] at hf
  exact hf hfst

theorem dictGet_dictPop_ne : ∀ (d : List (String × PyVal)) (k k2 : String),
    k2 ≠ k → dictGet (dictPop d k) k2 = dictGet d k2
  | [], _, _, _ => rfl
  | kv :: rest, k, k2, h => by
      have ih := dictGet_dictPop_ne rest k k2 h
      rw [dictPop, List.filter_cons]
      by_cases hkv : kv.1 = k
      · rw [show (decide ¬(kv.1 = k)) = false from
          decide_eq_false (not_not_intro hkv)]
        simp only [Bool.false_eq_true, if_false]
        rw [dictPop] at ih
        rw [ih, dictGet_cons,
          if_neg (show ¬ kv.1 = k2 by rw [hkv]; exact Ne.symm h)]
      · rw [show (decide ¬(kv.1 = k)) = true from decide_eq_true hkv]
        simp only [if_true]
        rw [dictGet_cons, dictGet_cons]
        by_cases hkv2 : kv.1 = k2
        · simp [hkv2]
        · simp only [hkv2, if_false]
          rw [dictPop] at ih
          exact ih

theorem dictGet_filter_ne_none : ∀ (d : List (String × PyVal)) (k : String)
    (v : PyVal), dictGet d k = some v → v ≠ PyVal.none →
    dictGet (d.filter (fun kv => !pyBeq kv.2 PyVal.none)) k = some v
  | [], k, v, hget, _ => by simp [dictGet] at hget
  | kv :: rest, k, v, hget, hv => by
      rw [dictGet_cons] at hget
      rw [List.filter_cons]
      by_cases hkv : kv.1 = k
      · have hv2 : kv.2 = v := by
          rw [if_pos hkv] at hget
          simpa using hget
        have hkeep : (!pyBeq kv.2 PyVal.none) = true := by
          rw [hv2]
          simp only [Bool.not_eq_true']
          exact (Bool.eq_false_iff).mpr
            (fun e => hv ((pyBeq_eq v PyVal.none).mp e))
        simp only [hkeep, if_true]
        rw [dictGet_cons, if_pos hkv, hv2]
      · rw [if_neg hkv] at hget
        have ih := dictGet_filter_ne_none rest k v hget hv
        cases hkeep : (!pyBeq kv.2 PyVal.none) with
        | true =>
          simp only [hkeep, if_true]
          rw [dictGet_cons, if_neg hkv]
          exact ih
        | false =>
          simp only [hkeep, Bool.false_eq_true, if_false]
          exact ih

/-! ## Claim C6 -/

/-- C6: the model config written to disk always carries the fixed
operational fields: whatever the caller passes as template,
hyperparameters or output dir, its `"logger"` entry is the wandb
provider dict and its `"num_checkpoints_to_keep"` entry is 10, because
`custom_modifications` is merged after the hyperparameters and the
`None`-filter does not remove either field. -/
theorem C6_fixed_fields_override (template hyper : List (String × PyVal))
    (model trainPath : String) (evalPath : Option String)
    (outputDir : PyVal) :
    dictGet (modelConfigData template hyper model trainPath evalPath
        outputDir) "logger" =
      some (.dict [("provider", .str "wandb")]) ∧
    dictGet (modelConfigData template hyper model trainPath evalPath
        outputDir) "num_checkpoints_to_keep" = some (.int 10) := by
  unfold modelConfigData
  constructor
  · apply dictGet_filter_ne_none
    · by_cases hod : pyTruthy outputDir = true <;>
        simp [hod, dictUpdate, dictGet_dictSet]
    · simp
  · apply dictGet_filter_ne_none
    · by_cases hod : pyTruthy outputDir = true <;>
        simp [hod, dictUpdate, dictGet_dictSet]
    · simp

/-! ## Claim C10 -/

/-- C10 counterexample: an empty caller-supplied `train_kwargs` dict
satisfies the precondition (no `"model"` key) yet is left unchanged by
the call, because `train_kwargs or {}` replaces a falsy dict with a
fresh one; so the claim that every precondition-satisfying caller
mapping is mutated is false. -/
theorem C10_counterexample :
    ("model" ∉ dictKeys ([] : List (String × PyVal))) ∧
    callerKwargsAfter [] "llama-3-8b" = [] :=
  ⟨by simp [dictKeys], rfl⟩

/-- C10 (amended): a non-empty caller-supplied `train_kwargs` mapping
without a `"model"` key is mutated in place by `finetune_anyscale`: it
gains `"model"`, loses `"serve_config_path"`, and is therefore not
left unchanged; an empty mapping is replaced by a fresh dict and kept
intact, and a mapping that already has `"model"` makes the call fail
with the line-93 assertion instead. -/
theorem C10_nonempty_kwargs_mutated_in_place
    (tk : List (String × PyVal)) (model : String)
    (hne : tk ≠ []) (hmodel : "model" ∉ dictKeys tk) :
    dictGet (callerKwargsAfter tk model) "model" = some (.str model) ∧
    dictGet (callerKwargsAfter tk model) "serve_config_path" =
      Option.none ∧
    callerKwargsAfter tk model ≠ tk ∧
    (∀ (tk2 : List (String × PyVal)) (data : List TrainRecord)
      (env : AnyscaleEnv), "model" ∈ dictKeys tk2 →
      (finetune_anyscale model data (some tk2) env).2 =
        Except.error (PyErr.assertionError assertMsg)) := by
  have hempty : tk.isEmpty = false := by
    cases tk
    · exact absurd rfl hne
    · rfl
  have hget : dictGet (callerKwargsAfter tk model) "model" =
      some (.str model) := by
    unfold callerKwargsAfter
    rw [hempty]
    simp only [Bool.false_eq_true, if_false]
    rw [dictGet_dictPop_ne _ _ _ (by decide), dictGet_dictSet]
    simp
  refine ⟨hget, ?_, ?_, ?_⟩
  · unfold callerKwargsAfter
    rw [hempty]
    simp only [Bool.false_eq_true, if_false]
    exact dictGet_dictPop_self _ _
  · intro he
    rw [he] at hget
    rw [(dictGet_eq_none_iff tk "model").mpr hmodel] at hget
    exact Option.noConfusion hget
  · intro tk2 data env hmem
    have hne2 : tk2.isEmpty = false := by
      cases tk2
      · simp [dictKeys] at hmem
      · rfl
    simp [finetune_anyscale, finetune_body, hne2, hmem]

/-! ## Claim C5 -/

/-- C5 (amended): `verify_dataset` is decided by the shape validation
alone — it returns the emptiness of the problem list, so a dataset with
an unsupported message role is rejected; the message-length computation
is performed but its result is bound to an unused local and does not
affect acceptance. -/
theorem C5_shape_validation_decides (ds : List TrainRecord)
    (hrole : ∃ r ∈ ds, ∃ m ∈ r.messages, m.role ∉ allowedRoles) :
    verify_dataset ds = false ∧
    (∀ ds2 : List TrainRecord,
      verify_dataset ds2 = (openai_data_validation ds2).isEmpty) := by
  have hgen : ∀ ds2 : List TrainRecord,
      verify_dataset ds2 = (openai_data_validation ds2).isEmpty := by
    intro ds2
    unfold verify_dataset
    cases hv : (openai_data_validation ds2).isEmpty <;> simp [hv]
  refine ⟨?_, hgen⟩
  rw [hgen ds]
  obtain ⟨r, hr, m, hm, hrole2⟩ := hrole
  unfold openai_data_validation
  have hany : (ds.any fun r => r.messages.any fun m =>
      !allowedRoles.contains m.role) = true := by
    rw [List.any_eq_true]
    refine ⟨r, hr, ?_⟩
    rw [List.any_eq_true]
    refine ⟨m, hm, ?_⟩
    simpa using hrole2
  rw [hany]
  cases hA : (ds.any fun r => r.messages.isEmpty) <;> simp [hA]

/-- C5 counterexample: a shape-valid dataset whose single conversation
exceeds the provider message-length limit is still accepted, so the
length check does not contribute to acceptance or rejection. -/
theorem C5_counterexample :
    verify_dataset [longRecord] = true ∧
    ∃ n ∈ check_message_lengths [longRecord], providerMaxLength < n := by
  refine ⟨rfl, 20000, ?_, by decide⟩
  have h1 : ∀ c : String,
      check_message_lengths [(⟨[⟨"user", c⟩]⟩ : TrainRecord)] = [c.length] :=
    fun c => rfl
  show 20000 ∈
    check_message_lengths
      [(⟨[⟨"user", String.mk (List.replicate 20000 'a')⟩]⟩ : TrainRecord)]
  rw [h1]
  have h2 : (String.mk (List.replicate 20000 'a')).length = 20000 := by
    show (List.replicate 20000 'a').length = 20000
    exact List.length_replicate 20000 'a'
  rw [h2]
  exact List.mem_singleton.mpr rfl

/-- Witness for C5 at the concrete bad-role dataset. -/
theorem C5_witness :
    verify_dataset exampleBadData = false ∧
    verify_dataset exampleBadData =
      (openai_data_validation exampleBadData).isEmpty := by
  have h := C5_shape_validation_decides exampleBadData
    ⟨⟨[⟨"alien", "hi"⟩]⟩, by simp [exampleBadData], ⟨"alien", "hi"⟩,
      by simp, by decide⟩
  exact ⟨h.1, h.2 exampleBadData⟩

/-! ## Claim C7 -/

/-- C7: when the dataset fails validation, `finetune_anyscale` logs the
error message and raises a `RuntimeError` with it, and neither data
saving, data upload, config generation nor job submission happens. -/
theorem C7_validation_failure_raises_runtime_error
    (model : String) (data : List TrainRecord)
    (tk : List (String × PyVal)) (env : AnyscaleEnv)
    (hmodel : "model" ∉ dictKeys tk)
    (hbad : verify_dataset data = false) :
    (finetune_anyscale model data (some tk) env).2 =
      Except.error (PyErr.runtimeError datasetErrMsg) ∧
    Effect.logError datasetErrMsg ∈
      (finetune_anyscale model data (some tk) env).1 ∧
    Effect.saveData ∉ (finetune_anyscale model data (some tk) env).1 ∧
    Effect.submitData ∉ (finetune_anyscale model data (some tk) env).1 ∧
    Effect.generateConfig ∉
      (finetune_anyscale model data (some tk) env).1 ∧
    Effect.submitJob ∉ (finetune_anyscale model data (some tk) env).1 := by
  by_cases hemp : tk.isEmpty = true
  · simp [finetune_anyscale, finetune_body, hemp, hbad, dictKeys,
      TRAINING_METHODS_ANYSCALE]
  · have hemp2 : tk.isEmpty = false := by simpa using hemp
    simp [finetune_anyscale, finetune_body, hemp2, hbad, hmodel,
      TRAINING_METHODS_ANYSCALE]

/-- Witness for C7 at the concrete bad-role dataset. -/
theorem C7_witness :
    ("model" ∉ dictKeys ([] : List (String × PyVal))) ∧
    verify_dataset exampleBadData = false ∧
    (finetune_anyscale "llama-3-8b" exampleBadData (some []) exampleEnv).2 =
      Except.error (PyErr.runtimeError datasetErrMsg) := by
  refine ⟨by simp [dictKeys], rfl, ?_⟩
  exact (C7_validation_failure_raises_runtime_error "llama-3-8b"
    exampleBadData [] exampleEnv (by simp [dictKeys]) rfl).1

/-! ## Claim C8 -/

/-- C8: if the training method in use is not among the methods AnyScale
supports (the list holds only SFT), the orchestration raises a
`NotImplementedError` before any dataset validation, data saving,
upload or submission takes place.  `finetune_body` is the body of
`finetune_anyscale` with the local `train_method` of line 95 as a
parameter. -/
theorem C8_unsupported_method_not_implemented
    (tm : TrainingMethod) (model : String) (data : List TrainRecord)
    (tk : List (String × PyVal)) (env : AnyscaleEnv)
    (hmodel : "model" ∉ dictKeys tk)
    (htm : tm ∉ TRAINING_METHODS_ANYSCALE) :
    (finetune_body tm model data (some tk) env).2 =
      Except.error (PyErr.notImplementedError unsupportedMsg) ∧
    Effect.verifyData ∉ (finetune_body tm model data (some tk) env).1 ∧
    Effect.saveData ∉ (finetune_body tm model data (some tk) env).1 ∧
    Effect.submitData ∉ (finetune_body tm model data (some tk) env).1 ∧
    Effect.submitJob ∉ (finetune_body tm model data (some tk) env).1 := by
  by_cases hemp : tk.isEmpty = true
  · simp [finetune_body, hemp, htm, dictKeys]
  · have hemp2 : tk.isEmpty = false := by simpa using hemp
    simp [finetune_body, hemp2, htm, hmodel]

/-- Witness for C8 at the unsupported `Preference` method. -/
theorem C8_witness :
    (TrainingMethod.Preference ∉ TRAINING_METHODS_ANYSCALE) ∧
    (finetune_body TrainingMethod.Preference "llama-3-8b"
        exampleGoodData (some []) exampleEnv).2 =
      Except.error (PyErr.notImplementedError unsupportedMsg) := by
  refine ⟨by decide, ?_⟩
  exact (C8_unsupported_method_not_implemented TrainingMethod.Preference
    "llama-3-8b" exampleGoodData [] exampleEnv (by simp [dictKeys])
    (by decide)).1

/-! ## Claim C4 -/

/-- C4 (divergence): the 18000-second job wait exists only in the
shadowed first `wait_for_training` (lines 158-160); the later
definition of the same name (lines 317-319) is the one in effect, it
reads `job.job_id`, and the call site at line 127 passes the job id
string itself, so the attribute access raises `AttributeError`: on an
otherwise happy-path run no job wait ever happens and model info is
never retrieved. -/
theorem C4_wait_step_unreachable :
    wait_for_training_shadowed "prodjob_123" =
      ([Effect.jobWait "prodjob_123" 18000], Except.ok ()) ∧
    (finetune_anyscale "llama-3-8b" exampleGoodData (some []) exampleEnv).2 =
      Except.error
        (PyErr.attributeError "str object has no attribute job_id") ∧
    (∀ (i : String) (t : Nat), Effect.jobWait i t ∉
      (finetune_anyscale "llama-3-8b" exampleGoodData (some []) exampleEnv).1) ∧
    (∀ i : String, Effect.getModelInfo i ∉
      (finetune_anyscale "llama-3-8b" exampleGoodData (some []) exampleEnv).1) := by
  have htr : (finetune_anyscale "llama-3-8b" exampleGoodData (some [])
      exampleEnv).1 =
    [Effect.logInfo "[Finetune] Starting training process...",
     Effect.logInfo "[Finetune] Retrieving the serve_config_path if provided...",
     Effect.logInfo "[Finetune] Validating the dataset format...",
     Effect.verifyData,
     Effect.logInfo "[Finetune] Converting data to JSONL format...",
     Effect.saveData,
     Effect.logInfo "[Finetune] Submitting data to remote storage...",
     Effect.submitData,
     Effect.logInfo "[Finetune] Generating configuration files...",
     Effect.generateConfig,
     Effect.logInfo "[Finetune] Starting remote training...",
     Effect.submitJob,
     Effect.logInfo "[Finetune] Waiting for training to complete...",
     Effect.logInfo "Waiting for training to complete",
     Effect.logError ("[Finetune] Error occurred during training: " ++
       "str object has no attribute job_id")] := rfl
  refine ⟨rfl, rfl, ?_, ?_⟩
  · intro i t hmem
    rw [htr] at hmem
    simp at hmem
  · intro i hmem
    rw [htr] at hmem
    simp at hmem

/-! ## Claim C9 -/

/-- C9: `submit_data` selects the copy command by the first two
characters of the destination path — `"s3"` gives the AWS CLI copy,
`"gs"` the gcloud CLI copy, anything else a plain local copy — and the
returned remote train path is the storage root joined with the final
component of the local path; the optional eval file is treated the
same way under the `"val"` tag. -/
theorem C9_copy_command_prefix_sniffing
    (storage trainPath : String) (evalPath : Option String) :
    (submit_data storage trainPath evalPath).2.1 =
      pathJoin storage (lastComponent trainPath) ∧
    ("train",
      if (pathJoin storage (lastComponent trainPath)).data.take 2 = "s3".data then
        CopyCmd.awsS3 trainPath (pathJoin storage (lastComponent trainPath))
      else if (pathJoin storage (lastComponent trainPath)).data.take 2 = "gs".data then
        CopyCmd.gcloudStorage trainPath
          (pathJoin storage (lastComponent trainPath))
      else
        CopyCmd.localCp trainPath
          (pathJoin storage (lastComponent trainPath))) ∈
      (submit_data storage trainPath evalPath).1 ∧
    (∀ p : String, evalPath = some p →
      (submit_data storage trainPath evalPath).2.2 =
        some (pathJoin storage (lastComponent p)) ∧
      ("val",
        if (pathJoin storage (lastComponent p)).data.take 2 = "s3".data then
          CopyCmd.awsS3 p (pathJoin storage (lastComponent p))
        else if (pathJoin storage (lastComponent p)).data.take 2 = "gs".data then
          CopyCmd.gcloudStorage p (pathJoin storage (lastComponent p))
        else
          CopyCmd.localCp p (pathJoin storage (lastComponent p))) ∈
        (submit_data storage trainPath evalPath).1) := by
  cases evalPath <;> simp [submit_data, submitOne]

/-- Witness for C9: both dataset files submitted against an
`s3`-prefixed storage root. -/
theorem C9_witness :
    (submit_data "s3://bucket/artifacts" "/tmp/train.jsonl"
      (some "/tmp/val.jsonl")).2.1 = "s3://bucket/artifacts/train.jsonl" ∧
    ("train", CopyCmd.awsS3 "/tmp/train.jsonl"
        "s3://bucket/artifacts/train.jsonl") ∈
      (submit_data "s3://bucket/artifacts" "/tmp/train.jsonl"
        (some "/tmp/val.jsonl")).1 ∧
    (submit_data "s3://bucket/artifacts" "/tmp/train.jsonl"
      (some "/tmp/val.jsonl")).2.2 = some "s3://bucket/artifacts/val.jsonl" := by
  have h := C9_copy_command_prefix_sniffing "s3://bucket/artifacts"
    "/tmp/train.jsonl" (some "/tmp/val.jsonl")
  have hjt : pathJoin "s3://bucket/artifacts" (lastComponent "/tmp/train.jsonl") =
      "s3://bucket/artifacts/train.jsonl" := rfl
  have hjv : pathJoin "s3://bucket/artifacts" (lastComponent "/tmp/val.jsonl") =
      "s3://bucket/artifacts/val.jsonl" := rfl
  have hs3t : ("s3://bucket/artifacts/train.jsonl".data.take 2 =
      "s3".data) := rfl
  refine ⟨?_, ?_, ?_⟩
  · rw [h.1, hjt]
  · have h2 := h.2.1
    rw [hjt] at h2
    rw [if_pos hs3t] at h2
    exact h2
  · exact ((h.2.2 "/tmp/val.jsonl" rfl).1).trans (by rw [hjv])

/-- Witness for C10 at a concrete non-empty kwargs mapping. -/
theorem C10_witness :
    ([("lr", PyVal.int 1)] ≠ ([] : List (String × PyVal))) ∧
    ("model" ∉ dictKeys [("lr", PyVal.int 1)]) ∧
    dictGet (callerKwargsAfter [("lr", PyVal.int 1)] "llama-3-8b") "model" =
      some (PyVal.str "llama-3-8b") ∧
    callerKwargsAfter [("lr", PyVal.int 1)] "llama-3-8b" ≠
      [("lr", PyVal.int 1)] := by
  refine ⟨by decide, by decide, ?_, ?_⟩
  · exact (C10_nonempty_kwargs_mutated_in_place [("lr", PyVal.int 1)]
      "llama-3-8b" (by decide) (by decide)).1
  · exact (C10_nonempty_kwargs_mutated_in_place [("lr", PyVal.int 1)]
      "llama-3-8b" (by decide) (by decide)).2.2.1
